import Mathlib

/-!
Shallow embedding of the `leapc` calendar-arithmetic core
(`src/quo_mod.c`, `src/leap.c`) and proofs of the specified properties.

C `int` arithmetic is modelled over unbounded `Int` (the specification
treats overflow as out of scope).  C's `%` on `int` is truncated
remainder, modelled by `Int.tmod`; C's `/` is truncated division,
modelled by `Int.tdiv`.  The unbounded `while` loop of `leap_off` and
the bounded `for` loop of `leap_date` are modelled with an explicit
iteration budget; the budget used by `leap_off` is proved sufficient
for every input.
-/

namespace Leapc

/-- Mirrors `struct quo_mod` of `inc/quo_mod.h`: integer quotient and modulus. -/
structure QuoMod where
  quo : Int
  mod : Int
  deriving DecidableEq

/-- Mirrors `struct leap_off` of `inc/leap.h`: a (year, day-of-year) pair. -/
structure LeapOff where
  year : Int
  day : Int
  deriving DecidableEq

/-- Mirrors `struct leap_date` of `inc/leap.h`: a (year, month, day-of-month) triple. -/
structure LeapDate where
  year : Int
  month : Int
  day : Int
  deriving DecidableEq

/-- `quo_mod` from `src/quo_mod.c`.  `mod = x % y` is C's truncated remainder.
The test `mod != 0 && (mod ^ y) < 0` asks whether the remainder is nonzero and
its sign bit differs from the divisor's, i.e. the two are strictly of opposite
signs; in that case the remainder is shifted by `y` (Lua-style modulo).  The
final `(x - mod) / y` is C truncated division, exact here. -/
def quo_mod (x y : Int) : QuoMod :=
  let mod0 := Int.tmod x y
  let mod := if mod0 ≠ 0 ∧ ¬(mod0 < 0 ↔ y < 0) then mod0 + y else mod0
  { quo := (x - mod).tdiv y, mod := mod }

/-- `is_leap` from `src/leap.c`: divisible by 4, except centuries that are not
divisible by 400.  C's `%` is truncated remainder. -/
def is_leap (year : Int) : Bool :=
  Int.tmod year 4 == 0 && (Int.tmod year 100 != 0 || Int.tmod year 400 == 0)

/-- `leap_add` from `src/leap.c`: 1 for a leap year, else 0. -/
def leap_add (year : Int) : Int :=
  if is_leap year then 1 else 0

/-- `leap_thru` from `src/leap.c`: `quo_mod(year,4).quo - quo_mod(year,100).quo
+ quo_mod(year,400).quo`. -/
def leap_thru (year : Int) : Int :=
  (quo_mod year 4).quo - (quo_mod year 100).quo + (quo_mod year 400).quo

/-- `leap_day` from `src/leap.c`: `year * 365 + leap_thru(year - 1) + 1`. -/
def leap_day (year : Int) : Int :=
  year * 365 + leap_thru (year - 1) + 1

/-- The `while` loop of `leap_off` in `src/leap.c`, with an explicit budget for
the number of body executions.  `none` means the budget was exhausted with the
day offset still outside `[0, days)`; the C loop would simply keep iterating.
`leap_off_loop_total` below shows a sufficient budget for every input, so the
embedding loses no behaviour of the C function. -/
def leap_off_loop (fuel : Nat) (year day : Int) : Option LeapOff :=
  let days := 365 + leap_add year
  if day < 0 ∨ days ≤ day then
    match fuel with
    | 0 => none
    | n + 1 =>
      let year0 := year + (quo_mod day days).quo
      leap_off_loop n year0 (day + (leap_day year - leap_day year0))
  else
    some { year := year, day := day }

/-- `leap_off` from `src/leap.c`.  The budget `natAbs day + 2` is proved
sufficient for every input (`leap_off_loop_total`), so the default of `getD`
is never used and this function agrees with the C `leap_off` everywhere. -/
def leap_off (year day : Int) : LeapOff :=
  (leap_off_loop (day.natAbs + 2) year day).getD { year := year, day := day }

/-- The `MDAY` table of `leap_mday` in `src/leap.c`. -/
def MDAY : List Int := [31, 28, 31, 30, 31, 30, 31, 31, 30, 31, 30, 31]

/-- The `YDAY` table of `leap_yday` in `src/leap.c`. -/
def YDAY : List Int := [0, 31, 59, 90, 120, 151, 181, 212, 243, 273, 304, 334]

/-- `leap_mday` from `src/leap.c`: `MDAY[qm.mod] + (month == 2 ?
leap_add(year + qm.quo) : 0)` where `qm = quo_mod(month - 1, 12)`.  The array
access is modelled with `getD`; the index `qm.mod` is always within `[0, 12)`. -/
def leap_mday (year month : Int) : Int :=
  let qm := quo_mod (month - 1) 12
  MDAY.getD qm.mod.toNat 0 + (if month = 2 then leap_add (year + qm.quo) else 0)

/-- `leap_yday` from `src/leap.c`: `YDAY[qm.mod] + (month > 2 ?
leap_add(year + qm.quo) : 0)` where `qm = quo_mod(month - 1, 12)`. -/
def leap_yday (year month : Int) : Int :=
  let qm := quo_mod (month - 1) 12
  YDAY.getD qm.mod.toNat 0 + (if month > 2 then leap_add (year + qm.quo) else 0)

/-- The month scan of `leap_date` in `src/leap.c`: C iterates `month` upward
from 1 while `month <= 12`, breaking when `day < leap_mday(year, month)` and
otherwise subtracting the month length.  The `Nat` argument counts the months
still allowed by C's `month <= 12` bound, so the scan is started with 12 at
month 1; falling through all twelve months returns month 13 exactly as the C
loop does. -/
def leap_date_scan (year : Int) : Nat → Int → Int → Int × Int
  | 0, month, day => (month, day)
  | n + 1, month, day =>
    let mday := leap_mday year month
    if day < mday then (month, day)
    else leap_date_scan year n (month + 1) (day - mday)

/-- `leap_date` from `src/leap.c`: normalise with `leap_off`, scan the months,
return the 1-based day of month. -/
def leap_date (year day : Int) : LeapDate :=
  let off := leap_off year day
  let md := leap_date_scan off.year 12 1 off.day
  { year := off.year, month := md.1, day := md.2 + 1 }

/-- `leap_date_from_off` from `src/leap.c`. -/
def leap_date_from_off (off : LeapOff) : LeapDate :=
  leap_date off.year off.day

/-- `leap_from` from `src/leap.c`: roll the month into `[1,12]` (offsetting the
year by the quotient), then normalise `leap_yday(year, qm.mod + 1) + day - 1`. -/
def leap_from (year month day : Int) : LeapOff :=
  let qm := quo_mod (month - 1) 12
  let year1 := year + qm.quo
  leap_off year1 (leap_yday year1 (qm.mod + 1) + day - 1)

/-- `leap_absdate` from `src/leap.c`: `leap_date(0, day)`. -/
def leap_absdate (day : Int) : LeapDate :=
  leap_date 0 day

/-- `leap_absfrom` from `src/leap.c`: `leap_day(off.year) + off.day` where
`off = leap_from(year, month, day)`. -/
def leap_absfrom (year month day : Int) : Int :=
  let off := leap_from year month day
  leap_day off.year + off.day

/-! ## Arithmetic facts about `quo_mod` -/

/-- Truncated remainder of a negated numerator is the negated remainder. -/
theorem tmod_neg_left (a b : Int) : (-a).tmod b = -(a.tmod b) := by
  have h1 := Int.tmod_add_tdiv a b
  have h2 := Int.tmod_add_tdiv (-a) b
  rw [Int.neg_tdiv] at h2
  linarith

/-- Range of the truncated remainder for a positive divisor. -/
theorem tmod_range (x : Int) {y : Int} (hy : 0 < y) : -y < x.tmod y ∧ x.tmod y < y := by
  constructor
  · have h1 : (-x).tmod y < y := Int.tmod_lt_of_pos (-x) hy
    rw [tmod_neg_left] at h1
    omega
  · exact Int.tmod_lt_of_pos x hy

/-- The truncated remainder never has the sign opposite to the numerator. -/
theorem tmod_sign (x y : Int) : (0 ≤ x → 0 ≤ x.tmod y) ∧ (x ≤ 0 → x.tmod y ≤ 0) := by
  constructor
  · exact fun hx => Int.tmod_nonneg y hx
  · intro hx
    have h1 : 0 ≤ (-x).tmod y := Int.tmod_nonneg y (by omega)
    rw [tmod_neg_left] at h1
    omega

/-- The division `(x - mod) / y` in `quo_mod` is exact: the candidate
quotient is `tdiv x y`, shifted by one when the remainder was adjusted. -/
theorem quo_mod_add (x y : Int) (hy : y ≠ 0) :
    x = y * (quo_mod x y).quo + (quo_mod x y).mod := by
  simp only [quo_mod]
  have hxy := Int.tmod_add_tdiv x y
  by_cases h : Int.tmod x y ≠ 0 ∧ ¬(Int.tmod x y < 0 ↔ y < 0)
  · rw [if_pos h]
    have hsub : x - (Int.tmod x y + y) = y * (x.tdiv y - 1) := by ring_nf; linarith
    rw [hsub, Int.mul_tdiv_cancel_left _ hy]
    ring_nf
    linarith
  · rw [if_neg h]
    have hsub : x - Int.tmod x y = y * x.tdiv y := by linarith
    rw [hsub, Int.mul_tdiv_cancel_left _ hy]
    linarith

/-- The modulus computed by `quo_mod` carries the divisor's sign and is
bounded by it, exactly as `quo_mod.c` documents. -/
theorem quo_mod_mod_range (x y : Int) (hy : y ≠ 0) :
    (0 < y → 0 ≤ (quo_mod x y).mod ∧ (quo_mod x y).mod < y) ∧
      (y < 0 → y < (quo_mod x y).mod ∧ (quo_mod x y).mod ≤ 0) := by
  simp only [quo_mod]
  have hneg : -(-y) < x.tmod (-y) ∧ x.tmod (-y) < -y ∨ 0 < y := by
    rcases lt_or_le 0 y with hpos | hle
    · right; exact hpos
    · left; exact tmod_range x (by omega)
  rw [Int.tmod_neg] at hneg
  have hpos : -y < x.tmod y ∧ x.tmod y < y ∨ y < 0 := by
    rcases lt_or_le 0 y with hpos | hle
    · left; exact tmod_range x hpos
    · right; omega
  by_cases h : Int.tmod x y ≠ 0 ∧ ¬(Int.tmod x y < 0 ↔ y < 0)
  · rw [if_pos h]
    omega
  · rw [if_neg h]
    omega

/-- For a positive divisor, `quo_mod` is Euclidean division, which is what
`omega` reasons about natively. -/
theorem quo_mod_pos_eq (x : Int) {y : Int} (hy : 0 < y) :
    quo_mod x y = ⟨x / y, x % y⟩ := by
  have hadd := quo_mod_add x y (by omega)
  have hrange := (quo_mod_mod_range x y (by omega)).1 hy
  have h := (Int.ediv_emod_unique hy (a := x)
    (r := (quo_mod x y).mod) (q := (quo_mod x y).quo)).2
    ⟨by linarith, hrange.1, hrange.2⟩
  rw [h.1, h.2]

/-! ## Leap-year facts -/

/-- The C truncated-remainder tests of `is_leap` in terms of the Euclidean
remainders `omega` understands. -/
theorem is_leap_iff (y : Int) :
    is_leap y = true ↔ (y % 4 = 0 ∧ (y % 100 ≠ 0 ∨ y % 400 = 0)) := by
  have key : ∀ m : Int, Int.tmod y m = 0 ↔ y % m = 0 := by
    intro m
    constructor
    · intro h
      exact Int.dvd_iff_emod_eq_zero.mp (Int.dvd_of_tmod_eq_zero h)
    · intro h
      exact Int.tmod_eq_zero_of_dvd (Int.dvd_iff_emod_eq_zero.mpr h)
  have h4 := key 4
  have h100 := key 100
  have h400 := key 400
  simp only [is_leap, Bool.and_eq_true, Bool.or_eq_true, beq_iff_eq, bne_iff_ne, ne_eq]
  tauto

/-- `leap_add` only takes the values 0 and 1. -/
theorem leap_add_cases (y : Int) : leap_add y = 0 ∨ leap_add y = 1 := by
  unfold leap_add
  by_cases h : is_leap y <;> simp [h]

/-- `leap_add` in Euclidean-remainder terms. -/
theorem leap_add_eq_one_iff (y : Int) :
    leap_add y = 1 ↔ (y % 4 = 0 ∧ (y % 100 ≠ 0 ∨ y % 400 = 0)) := by
  unfold leap_add
  by_cases h : is_leap y
  · simp only [if_pos h]
    constructor
    · intro _
      exact (is_leap_iff y).mp h
    · intro _
      trivial
  · simp only [if_neg h]
    constructor
    · intro h01
      exact absurd h01 (by norm_num)
    · intro hp
      exact absurd ((is_leap_iff y).mpr hp) h

/-- `leap_thru` as Euclidean divisions. -/
theorem leap_thru_eq (y : Int) : leap_thru y = y / 4 - y / 100 + y / 400 := by
  unfold leap_thru
  rw [quo_mod_pos_eq y (by norm_num : (0:Int) < 4),
    quo_mod_pos_eq y (by norm_num : (0:Int) < 100),
    quo_mod_pos_eq y (by norm_num : (0:Int) < 400)]

/-- `leap_day` as Euclidean divisions. -/
theorem leap_day_eq (y : Int) :
    leap_day y = y * 365 + ((y - 1) / 4 - (y - 1) / 100 + (y - 1) / 400) + 1 := by
  unfold leap_day
  rw [leap_thru_eq]

/-- Successive years differ by exactly `365 + leap_add year` absolute days:
the heart of the `leap_day` contract. -/
theorem leap_day_succ (y : Int) : leap_day (y + 1) = leap_day y + 365 + leap_add y := by
  have h1 := leap_day_eq (y + 1)
  have h2 := leap_day_eq y
  have h3 := leap_add_eq_one_iff y
  have h4 := leap_add_cases y
  have e : y + 1 - 1 = y := by ring
  rw [e] at h1
  omega

/-- `leap_day` is monotone non-decreasing. -/
theorem leap_day_mono {a b : Int} (h : a ≤ b) : leap_day a ≤ leap_day b := by
  refine Int.le_induction (P := fun n => leap_day a ≤ leap_day n) (le_refl _) ?_ b h
  intro k _ ih
  have h1 := leap_day_succ k
  have h2 := leap_add_cases k
  omega

/-- Jumping `k` whole years changes `leap_day` by between `365 k` and `366 k`. -/
theorem leap_day_diff_bounds (a : Int) (k : Nat) :
    365 * (k : Int) ≤ leap_day (a + k) - leap_day a ∧
      leap_day (a + k) - leap_day a ≤ 366 * (k : Int) := by
  induction k with
  | zero => simp
  | succ n ih =>
    have hstep := leap_day_succ (a + n)
    have hcase := leap_add_cases (a + n)
    have hcast : (((n + 1) : Nat) : Int) = (n : Int) + 1 := by push_cast; ring
    have he : a + ((n + 1 : Nat) : Int) = (a + n) + 1 := by push_cast; ring
    rw [he, hstep, hcast]
    constructor <;> omega

/-- Two consecutive years are never both leap years. -/
theorem not_both_leap (y : Int) : ¬(leap_add y = 1 ∧ leap_add (y + 1) = 1) := by
  have h1 := leap_add_eq_one_iff y
  have h2 := leap_add_eq_one_iff (y + 1)
  omega

/-! ## The `leap_off` normalisation loop -/

/-- When the day offset is already inside `[0, days)` the loop exits at once,
whatever budget remains. -/
theorem leap_off_loop_done {fuel : Nat} {y d : Int}
    (h : ¬(d < 0 ∨ 365 + leap_add y ≤ d)) :
    leap_off_loop fuel y d = some ⟨y, d⟩ := by
  rw [leap_off_loop.eq_def]
  simp only [if_neg h]

/-- An exhausted budget with the guard still true yields `none`. -/
theorem leap_off_loop_zero {y d : Int} (h : d < 0 ∨ 365 + leap_add y ≤ d) :
    leap_off_loop 0 y d = none := by
  rw [leap_off_loop.eq_def]
  simp only [if_pos h]

/-- One execution of the loop body. -/
theorem leap_off_loop_succ {fuel : Nat} {y d : Int}
    (h : d < 0 ∨ 365 + leap_add y ≤ d) :
    leap_off_loop (fuel + 1) y d =
      leap_off_loop fuel (y + (quo_mod d (365 + leap_add y)).quo)
        (d + (leap_day y - leap_day (y + (quo_mod d (365 + leap_add y)).quo))) := by
  conv_lhs => rw [leap_off_loop.eq_def]
  simp only [if_pos h]

/-- A successful run keeps succeeding, with the same answer, on any larger
budget. -/
theorem leap_off_loop_mono {r : LeapOff} :
    ∀ (n : Nat) (y d : Int) (m : Nat), n ≤ m →
      leap_off_loop n y d = some r → leap_off_loop m y d = some r := by
  intro n
  induction n with
  | zero =>
    intro y d m _ hsome
    by_cases h : d < 0 ∨ 365 + leap_add y ≤ d
    · rw [leap_off_loop_zero h] at hsome
      exact absurd hsome (by simp)
    · rw [leap_off_loop_done h] at hsome ⊢
      exact hsome
  | succ k ih =>
    intro y d m hm hsome
    by_cases h : d < 0 ∨ 365 + leap_add y ≤ d
    · rw [leap_off_loop_succ h] at hsome
      obtain ⟨m', rfl⟩ : ∃ m', m = m' + 1 := ⟨m - 1, by omega⟩
      rw [leap_off_loop_succ h]
      exact ih _ _ m' (by omega) hsome
    · rw [leap_off_loop_done h] at hsome ⊢
      exact hsome

/-- Loop invariant: a successful run lands inside the year bounds and
preserves the absolute day number `leap_day year + day`. -/
theorem leap_off_loop_inv {r : LeapOff} :
    ∀ (n : Nat) (y d : Int), leap_off_loop n y d = some r →
      0 ≤ r.day ∧ r.day < 365 + leap_add r.year ∧
        leap_day r.year + r.day = leap_day y + d := by
  intro n
  induction n with
  | zero =>
    intro y d hsome
    by_cases h : d < 0 ∨ 365 + leap_add y ≤ d
    · rw [leap_off_loop_zero h] at hsome
      exact absurd hsome (by simp)
    · rw [leap_off_loop_done h] at hsome
      obtain rfl : r = (⟨y, d⟩ : LeapOff) := by
        injection hsome with h1
        exact h1.symm
      refine ⟨?_, ?_, ?_⟩
      · show 0 ≤ d
        omega
      · show d < 365 + leap_add y
        omega
      · rfl
  | succ k ih =>
    intro y d hsome
    by_cases h : d < 0 ∨ 365 + leap_add y ≤ d
    · rw [leap_off_loop_succ h] at hsome
      have := ih _ _ hsome
      constructor
      · exact this.1
      · constructor
        · exact this.2.1
        · rw [this.2.2]
          ring
    · rw [leap_off_loop_done h] at hsome
      obtain rfl : r = (⟨y, d⟩ : LeapOff) := by
        injection hsome with h1
        exact h1.symm
      refine ⟨?_, ?_, ?_⟩
      · show 0 ≤ d
        omega
      · show d < 365 + leap_add y
        omega
      · rfl

/-- `leap_day` difference bounds for a forward jump, in `Int` form. -/
theorem diff_bound_pos (y : Int) {q : Int} (hq : 0 ≤ q) :
    365 * q ≤ leap_day (y + q) - leap_day y ∧ leap_day (y + q) - leap_day y ≤ 366 * q := by
  have hk := leap_day_diff_bounds y q.toNat
  rw [Int.toNat_of_nonneg hq] at hk
  exact hk

/-- `leap_day` difference bounds for a backward jump, in `Int` form. -/
theorem diff_bound_neg (y : Int) {q : Int} (hq : q ≤ 0) :
    365 * (-q) ≤ leap_day y - leap_day (y + q) ∧
      leap_day y - leap_day (y + q) ≤ 366 * (-q) := by
  have hk := leap_day_diff_bounds (y + q) (-q).toNat
  rw [Int.toNat_of_nonneg (by omega : (0:Int) ≤ -q)] at hk
  rw [show y + q + -q = y from by ring] at hk
  omega

/-- Far from the normalised range, each loop body execution strictly shrinks
the day offset's magnitude. -/
theorem step_decrease {y d : Int} (h : 369 ≤ d.natAbs) :
    (d + (leap_day y - leap_day (y + (quo_mod d (365 + leap_add y)).quo))).natAbs <
      d.natAbs := by
  have hla := leap_add_cases y
  have hq : (quo_mod d (365 + leap_add y)).quo = d / (365 + leap_add y) := by
    rw [quo_mod_pos_eq d (by omega)]
  rw [hq]
  rcases hla with h0 | h0 <;> rw [h0]
  · rw [show (365:Int) + 0 = 365 from by norm_num]
    by_cases hd : 0 ≤ d
    · have hb := diff_bound_pos y (q := d / 365) (by omega)
      omega
    · have hb := diff_bound_neg y (q := d / 365) (by omega)
      omega
  · rw [show (365:Int) + 1 = 366 from by norm_num]
    by_cases hd : 0 ≤ d
    · have hb := diff_bound_pos y (q := d / 366) (by omega)
      omega
    · have hb := diff_bound_neg y (q := d / 366) (by omega)
      omega

/-- From a day offset in `[-1, 365]` one more body execution always suffices:
the only states still outside the year bounds are `-1`, and `365` in a common
year, and both normalise in a single jump. -/
theorem one_more (y1 d1 : Int) (hlo : -1 ≤ d1) (hhi : d1 ≤ 365) :
    ∃ r, leap_off_loop 1 y1 d1 = some r := by
  by_cases hg : d1 < 0 ∨ 365 + leap_add y1 ≤ d1
  · rw [leap_off_loop_succ hg]
    have hla := leap_add_cases y1
    have hq : (quo_mod d1 (365 + leap_add y1)).quo = d1 / (365 + leap_add y1) := by
      rw [quo_mod_pos_eq d1 (by omega)]
    rw [hq]
    have hcase : d1 = -1 ∨ (d1 = 365 ∧ leap_add y1 = 0) := by omega
    rcases hcase with rfl | ⟨rfl, hla0⟩
    · have hqv : (-1 : Int) / (365 + leap_add y1) = -1 := by
        rcases hla with h0 | h0 <;> rw [h0] <;> norm_num
      rw [hqv, show y1 + -1 = y1 - 1 from by ring]
      have hst := leap_day_succ (y1 - 1)
      rw [show y1 - 1 + 1 = y1 from by ring] at hst
      have hla2 := leap_add_cases (y1 - 1)
      exact ⟨_, leap_off_loop_done (by omega)⟩
    · have hqv : (365 : Int) / (365 + leap_add y1) = 1 := by
        rw [hla0]
        norm_num
      rw [hqv]
      have hst := leap_day_succ y1
      have hla2 := leap_add_cases (y1 + 1)
      exact ⟨_, leap_off_loop_done (by omega)⟩
  · exact ⟨_, leap_off_loop_done hg⟩

/-- Within 368 days of the current year's start, two body executions always
normalise the offset (the worst cases are the `-366` chains). -/
theorem small_two (y d : Int) (hlo : -368 ≤ d) (hhi : d ≤ 368) :
    ∃ r, leap_off_loop 2 y d = some r := by
  by_cases hg : d < 0 ∨ 365 + leap_add y ≤ d
  · rw [show (2 : Nat) = 1 + 1 from rfl, leap_off_loop_succ hg]
    have hla := leap_add_cases y
    have hq : (quo_mod d (365 + leap_add y)).quo = d / (365 + leap_add y) := by
      rw [quo_mod_pos_eq d (by omega)]
    rw [hq]
    have hqv : d / (365 + leap_add y) = -2 ∨ d / (365 + leap_add y) = -1 ∨
        d / (365 + leap_add y) = 1 := by
      rcases hla with h0 | h0 <;> rw [h0] <;> omega
    have hs1 := leap_day_succ (y - 1)
    rw [show y - 1 + 1 = y from by ring] at hs1
    have hs2 := leap_day_succ (y - 2)
    rw [show y - 2 + 1 = y - 1 from by ring] at hs2
    have hs0 := leap_day_succ y
    have hla1 := leap_add_cases (y - 1)
    have hla2 := leap_add_cases (y - 2)
    have hnb := not_both_leap (y - 2)
    rw [show y - 2 + 1 = y - 1 from by ring] at hnb
    rcases hqv with hv | hv | hv <;> rw [hv]
    · rw [show y + -2 = y - 2 from by ring]
      apply one_more <;> rcases hla with h0 | h0 <;> rw [h0] at hv <;> omega
    · rw [show y + -1 = y - 1 from by ring]
      apply one_more <;> rcases hla with h0 | h0 <;> rw [h0] at hv <;> omega
    · apply one_more <;> rcases hla with h0 | h0 <;> rw [h0] at hv <;> omega
  · exact ⟨_, leap_off_loop_done hg⟩

/-- Totality of the normalisation loop: a budget of `natAbs day + 2` body
executions always suffices, for every year and every day offset. -/
theorem leap_off_loop_total : ∀ (n : Nat) (y d : Int), d.natAbs ≤ n →
    ∃ r, leap_off_loop (n + 2) y d = some r := by
  intro n
  induction n with
  | zero =>
    intro y d hd
    exact small_two y d (by omega) (by omega)
  | succ k ih =>
    intro y d hd
    by_cases hsmall : d.natAbs ≤ 368
    · obtain ⟨r, hr⟩ := small_two y d (by omega) (by omega)
      exact ⟨r, leap_off_loop_mono 2 y d (k + 1 + 2) (by omega) hr⟩
    · have hg : d < 0 ∨ 365 + leap_add y ≤ d := by
        have := leap_add_cases y
        omega
      rw [show k + 1 + 2 = (k + 2) + 1 from by omega, leap_off_loop_succ hg]
      have hdec := step_decrease (y := y) (d := d) (by omega)
      exact ih _ _ (by omega)

/-- `leap_off` is the unique successful value of its loop. -/
theorem leap_off_eq_loop (y d : Int) :
    leap_off_loop (d.natAbs + 2) y d = some (leap_off y d) := by
  obtain ⟨r, hr⟩ := leap_off_loop_total d.natAbs y d (le_refl _)
  rw [leap_off, hr]
  rfl

/-- The normalisation contract of `leap_off`: the day lands inside the year
bounds and the absolute day number is preserved. -/
theorem leap_off_spec (y d : Int) :
    0 ≤ (leap_off y d).day ∧
      (leap_off y d).day < 365 + leap_add (leap_off y d).year ∧
        leap_day (leap_off y d).year + (leap_off y d).day = leap_day y + d :=
  leap_off_loop_inv _ y d (leap_off_eq_loop y d)

/-- An already-normalised pair passes through `leap_off` untouched. -/
theorem leap_off_done (y d : Int) (h0 : 0 ≤ d) (h1 : d < 365 + leap_add y) :
    leap_off y d = ⟨y, d⟩ := by
  rw [leap_off, leap_off_loop_done (by omega)]
  rfl

/-- Any normalised pair with the same absolute day number is `leap_off`'s
result: the normal form is unique. -/
theorem leap_off_unique {y d a b : Int} (h0 : 0 ≤ b) (h1 : b < 365 + leap_add a)
    (h2 : leap_day a + b = leap_day y + d) : leap_off y d = ⟨a, b⟩ := by
  obtain ⟨hr0, hr1, hr2⟩ := leap_off_spec y d
  have hy : (leap_off y d).year = a := by
    by_contra hne
    rcases lt_or_gt_of_ne hne with hlt | hgt
    · have hm : leap_day ((leap_off y d).year + 1) ≤ leap_day a := leap_day_mono (by omega)
      have hs := leap_day_succ (leap_off y d).year
      omega
    · have hm : leap_day (a + 1) ≤ leap_day (leap_off y d).year := leap_day_mono (by omega)
      have hs := leap_day_succ a
      omega
  have hd : (leap_off y d).day = b := by
    have := congrArg leap_day hy
    omega
  calc leap_off y d = ⟨(leap_off y d).year, (leap_off y d).day⟩ := rfl
    _ = ⟨a, b⟩ := by rw [hy, hd]

/-! ## Month tables and the `leap_date` scan -/

/-- Sum of `leap_mday` over `n` consecutive months starting at `month`: the
number of days the month scan of `leap_date` consumes. -/
def mdaySum (year : Int) : Int → Nat → Int
  | _, 0 => 0
  | month, n + 1 => leap_mday year month + mdaySum year (month + 1) n

/-- The first 0 month lengths sum to 0. -/
theorem mdaySum_1_0 (y : Int) : mdaySum y 1 0 = 0 := rfl

/-- The first 1 month lengths sum to 31. -/
theorem mdaySum_1_1 (y : Int) : mdaySum y 1 1 = 31 := rfl

/-- The first 2 month lengths sum to 59 plus the leap day. -/
theorem mdaySum_1_2 (y : Int) : mdaySum y 1 2 = 59 + leap_add y := by
  have h : mdaySum y 1 2 = 59 + leap_add (y + 0) := by
    show (31 + (28 + leap_add (y + 0) + (0)) : Int) = 59 + leap_add (y + 0)
    omega
  rw [add_zero] at h
  exact h

/-- The first 3 month lengths sum to 90 plus the leap day. -/
theorem mdaySum_1_3 (y : Int) : mdaySum y 1 3 = 90 + leap_add y := by
  have h : mdaySum y 1 3 = 90 + leap_add (y + 0) := by
    show (31 + (28 + leap_add (y + 0) + (31 + (0))) : Int) = 90 + leap_add (y + 0)
    omega
  rw [add_zero] at h
  exact h

/-- The first 4 month lengths sum to 120 plus the leap day. -/
theorem mdaySum_1_4 (y : Int) : mdaySum y 1 4 = 120 + leap_add y := by
  have h : mdaySum y 1 4 = 120 + leap_add (y + 0) := by
    show (31 + (28 + leap_add (y + 0) + (31 + (30 + (0)))) : Int) = 120 + leap_add (y + 0)
    omega
  rw [add_zero] at h
  exact h

/-- The first 5 month lengths sum to 151 plus the leap day. -/
theorem mdaySum_1_5 (y : Int) : mdaySum y 1 5 = 151 + leap_add y := by
  have h : mdaySum y 1 5 = 151 + leap_add (y + 0) := by
    show (31 + (28 + leap_add (y + 0) + (31 + (30 + (31 + (0))))) : Int) = 151 + leap_add (y + 0)
    omega
  rw [add_zero] at h
  exact h

/-- The first 6 month lengths sum to 181 plus the leap day. -/
theorem mdaySum_1_6 (y : Int) : mdaySum y 1 6 = 181 + leap_add y := by
  have h : mdaySum y 1 6 = 181 + leap_add (y + 0) := by
    show (31 + (28 + leap_add (y + 0) + (31 + (30 + (31 + (30 + (0)))))) : Int) = 181 + leap_add (y + 0)
    omega
  rw [add_zero] at h
  exact h

/-- The first 7 month lengths sum to 212 plus the leap day. -/
theorem mdaySum_1_7 (y : Int) : mdaySum y 1 7 = 212 + leap_add y := by
  have h : mdaySum y 1 7 = 212 + leap_add (y + 0) := by
    show (31 + (28 + leap_add (y + 0) + (31 + (30 + (31 + (30 + (31 + (0))))))) : Int) = 212 + leap_add (y + 0)
    omega
  rw [add_zero] at h
  exact h

/-- The first 8 month lengths sum to 243 plus the leap day. -/
theorem mdaySum_1_8 (y : Int) : mdaySum y 1 8 = 243 + leap_add y := by
  have h : mdaySum y 1 8 = 243 + leap_add (y + 0) := by
    show (31 + (28 + leap_add (y + 0) + (31 + (30 + (31 + (30 + (31 + (31 + (0)))))))) : Int) = 243 + leap_add (y + 0)
    omega
  rw [add_zero] at h
  exact h

/-- The first 9 month lengths sum to 273 plus the leap day. -/
theorem mdaySum_1_9 (y : Int) : mdaySum y 1 9 = 273 + leap_add y := by
  have h : mdaySum y 1 9 = 273 + leap_add (y + 0) := by
    show (31 + (28 + leap_add (y + 0) + (31 + (30 + (31 + (30 + (31 + (31 + (30 + (0))))))))) : Int) = 273 + leap_add (y + 0)
    omega
  rw [add_zero] at h
  exact h

/-- The first 10 month lengths sum to 304 plus the leap day. -/
theorem mdaySum_1_10 (y : Int) : mdaySum y 1 10 = 304 + leap_add y := by
  have h : mdaySum y 1 10 = 304 + leap_add (y + 0) := by
    show (31 + (28 + leap_add (y + 0) + (31 + (30 + (31 + (30 + (31 + (31 + (30 + (31 + (0)))))))))) : Int) = 304 + leap_add (y + 0)
    omega
  rw [add_zero] at h
  exact h

/-- The first 11 month lengths sum to 334 plus the leap day. -/
theorem mdaySum_1_11 (y : Int) : mdaySum y 1 11 = 334 + leap_add y := by
  have h : mdaySum y 1 11 = 334 + leap_add (y + 0) := by
    show (31 + (28 + leap_add (y + 0) + (31 + (30 + (31 + (30 + (31 + (31 + (30 + (31 + (30 + (0))))))))))) : Int) = 334 + leap_add (y + 0)
    omega
  rw [add_zero] at h
  exact h

/-- The first 12 month lengths sum to 365 plus the leap day. -/
theorem mdaySum_1_12 (y : Int) : mdaySum y 1 12 = 365 + leap_add y := by
  have h : mdaySum y 1 12 = 365 + leap_add (y + 0) := by
    show (31 + (28 + leap_add (y + 0) + (31 + (30 + (31 + (30 + (31 + (31 + (30 + (31 + (30 + (31 + (0)))))))))))) : Int) = 365 + leap_add (y + 0)
    omega
  rw [add_zero] at h
  exact h

/-- `leap_yday` at month 1. -/
theorem leap_yday_1 (y : Int) : leap_yday y 1 = 0 := rfl

/-- `leap_yday` at month 2. -/
theorem leap_yday_2 (y : Int) : leap_yday y 2 = 31 := rfl

/-- `leap_yday` at month 3. -/
theorem leap_yday_3 (y : Int) : leap_yday y 3 = 59 + leap_add y := by
  have h : leap_yday y 3 = 59 + leap_add (y + 0) := rfl
  rw [add_zero] at h
  exact h

/-- `leap_yday` at month 4. -/
theorem leap_yday_4 (y : Int) : leap_yday y 4 = 90 + leap_add y := by
  have h : leap_yday y 4 = 90 + leap_add (y + 0) := rfl
  rw [add_zero] at h
  exact h

/-- `leap_yday` at month 5. -/
theorem leap_yday_5 (y : Int) : leap_yday y 5 = 120 + leap_add y := by
  have h : leap_yday y 5 = 120 + leap_add (y + 0) := rfl
  rw [add_zero] at h
  exact h

/-- `leap_yday` at month 6. -/
theorem leap_yday_6 (y : Int) : leap_yday y 6 = 151 + leap_add y := by
  have h : leap_yday y 6 = 151 + leap_add (y + 0) := rfl
  rw [add_zero] at h
  exact h

/-- `leap_yday` at month 7. -/
theorem leap_yday_7 (y : Int) : leap_yday y 7 = 181 + leap_add y := by
  have h : leap_yday y 7 = 181 + leap_add (y + 0) := rfl
  rw [add_zero] at h
  exact h

/-- `leap_yday` at month 8. -/
theorem leap_yday_8 (y : Int) : leap_yday y 8 = 212 + leap_add y := by
  have h : leap_yday y 8 = 212 + leap_add (y + 0) := rfl
  rw [add_zero] at h
  exact h

/-- `leap_yday` at month 9. -/
theorem leap_yday_9 (y : Int) : leap_yday y 9 = 243 + leap_add y := by
  have h : leap_yday y 9 = 243 + leap_add (y + 0) := rfl
  rw [add_zero] at h
  exact h

/-- `leap_yday` at month 10. -/
theorem leap_yday_10 (y : Int) : leap_yday y 10 = 273 + leap_add y := by
  have h : leap_yday y 10 = 273 + leap_add (y + 0) := rfl
  rw [add_zero] at h
  exact h

/-- `leap_yday` at month 11. -/
theorem leap_yday_11 (y : Int) : leap_yday y 11 = 304 + leap_add y := by
  have h : leap_yday y 11 = 304 + leap_add (y + 0) := rfl
  rw [add_zero] at h
  exact h

/-- `leap_yday` at month 12. -/
theorem leap_yday_12 (y : Int) : leap_yday y 12 = 334 + leap_add y := by
  have h : leap_yday y 12 = 334 + leap_add (y + 0) := rfl
  rw [add_zero] at h
  exact h

/-- Correctness of the month scan: starting anywhere, with enough budgeted
months to cover the day count, the scan stops at the month whose cumulative
span contains the day, returning the remaining day offset. -/
theorem leap_date_scan_spec (year : Int) : ∀ (n : Nat) (month day : Int),
    0 ≤ day → day < mdaySum year month n →
    ∃ m r, leap_date_scan year n month day = (m, r) ∧ month ≤ m ∧ m < month + n ∧
      0 ≤ r ∧ r < leap_mday year m ∧ mdaySum year month (m - month).toNat + r = day := by
  intro n
  induction n with
  | zero =>
    intro month day h0 h1
    simp only [mdaySum] at h1
    omega
  | succ k ih =>
    intro month day h0 h1
    simp only [leap_date_scan]
    by_cases hlt : day < leap_mday year month
    · rw [if_pos hlt]
      refine ⟨month, day, rfl, le_refl _, by omega, h0, hlt, ?_⟩
      rw [show (month - month).toNat = 0 from by omega]
      simp only [mdaySum]
      omega
    · rw [if_neg hlt]
      have h1s : mdaySum year month (k + 1) =
          leap_mday year month + mdaySum year (month + 1) k := rfl
      have h1a : day - leap_mday year month < mdaySum year (month + 1) k := by
        omega
      obtain ⟨m, r, heq, hm1, hm2, hr0, hr1, hsum⟩ :=
        ih (month + 1) (day - leap_mday year month) (by omega) h1a
      refine ⟨m, r, heq, by omega, by omega, hr0, hr1, ?_⟩
      rw [show (m - month).toNat = (m - (month + 1)).toNat + 1 from by omega]
      have h2s : mdaySum year month ((m - (month + 1)).toNat + 1) =
          leap_mday year month + mdaySum year (month + 1) (m - (month + 1)).toNat := rfl
      omega

/-- `quo_mod` leaves a value already in `[0, 12)` untouched. -/
theorem quo_mod_small {a : Int} (h0 : 0 ≤ a) (h1 : a < 12) : quo_mod a 12 = ⟨0, a⟩ := by
  rw [quo_mod_pos_eq a (by norm_num : (0:Int) < 12)]
  rw [show a / 12 = 0 from by omega, show a % 12 = a from by omega]

/-- For an in-range month, `leap_yday` is exactly the scan's cumulative
month-length sum. -/
theorem leap_yday_eq_mdaySum (y m : Int) (h1 : 1 ≤ m) (h2 : m ≤ 12) :
    leap_yday y m = mdaySum y 1 (m - 1).toNat := by
  interval_cases m
  · rfl
  · rfl
  · show leap_yday y 3 = mdaySum y 1 2
    rw [leap_yday_3, mdaySum_1_2]
  · show leap_yday y 4 = mdaySum y 1 3
    rw [leap_yday_4, mdaySum_1_3]
  · show leap_yday y 5 = mdaySum y 1 4
    rw [leap_yday_5, mdaySum_1_4]
  · show leap_yday y 6 = mdaySum y 1 5
    rw [leap_yday_6, mdaySum_1_5]
  · show leap_yday y 7 = mdaySum y 1 6
    rw [leap_yday_7, mdaySum_1_6]
  · show leap_yday y 8 = mdaySum y 1 7
    rw [leap_yday_8, mdaySum_1_7]
  · show leap_yday y 9 = mdaySum y 1 8
    rw [leap_yday_9, mdaySum_1_8]
  · show leap_yday y 10 = mdaySum y 1 9
    rw [leap_yday_10, mdaySum_1_9]
  · show leap_yday y 11 = mdaySum y 1 10
    rw [leap_yday_11, mdaySum_1_10]
  · show leap_yday y 12 = mdaySum y 1 11
    rw [leap_yday_12, mdaySum_1_11]

/-- For an in-range month, `leap_from` reduces to normalising
`leap_yday(year, month) + day - 1` in the same year. -/
theorem leap_from_reduce (Y m D : Int) (h1 : 1 ≤ m) (h2 : m ≤ 12) :
    leap_from Y m D = leap_off Y (leap_yday Y m + D - 1) := by
  have hq : quo_mod (m - 1) 12 = ⟨0, m - 1⟩ := quo_mod_small (by omega) (by omega)
  simp only [leap_from, hq]
  rw [add_zero, sub_add_cancel]

/-- Day-offset round trip through the full civil-date pipeline: converting a
normalised `(year, day)` pair to a date and back to an absolute day count
recovers `leap_day year + day`. -/
theorem absfrom_date_eq (y d : Int) :
    leap_absfrom (leap_date y d).year (leap_date y d).month (leap_date y d).day =
      leap_day y + d := by
  obtain ⟨h0, h1, h2⟩ := leap_off_spec y d
  have hlt : (leap_off y d).day < mdaySum (leap_off y d).year 1 12 := by
    rw [mdaySum_1_12]
    omega
  obtain ⟨m, r, heq, hm1, hm2, hr0, hr1, hsum⟩ :=
    leap_date_scan_spec (leap_off y d).year 12 1 (leap_off y d).day h0 hlt
  have hdate : leap_date y d = ⟨(leap_off y d).year, m, r + 1⟩ := by
    simp only [leap_date, heq]
  rw [hdate]
  show leap_absfrom (leap_off y d).year m (r + 1) = leap_day y + d
  have hyd : leap_yday (leap_off y d).year m = mdaySum (leap_off y d).year 1 (m - 1).toNat :=
    leap_yday_eq_mdaySum _ _ (by omega) (by omega)
  simp only [leap_absfrom]
  rw [leap_from_reduce _ _ _ (by omega) (by omega)]
  have harg : leap_yday (leap_off y d).year m + (r + 1) - 1 = (leap_off y d).day := by
    rw [hyd]
    omega
  rw [harg, leap_off_done _ _ h0 h1]
  show leap_day (leap_off y d).year + (leap_off y d).day = leap_day y + d
  omega

/-! ## Specified properties -/

/-- C1: for every integer `d`, converting the absolute day count `d` to a
civil date and back yields `d`: `leap_absfrom` applied to the year, month and
day fields of `leap_absdate d` equals `d`. -/
theorem c1_absolute_day_roundtrip (d : Int) :
    leap_absfrom (leap_absdate d).year (leap_absdate d).month (leap_absdate d).day = d := by
  show leap_absfrom (leap_date 0 d).year (leap_date 0 d).month (leap_date 0 d).day = d
  rw [absfrom_date_eq 0 d]
  have hz : leap_day 0 = 0 := by decide
  omega

/-- C2: for every integer `x` and nonzero integer `y`, `quo_mod x y` returns
`(quo, mod)` with `x = y * quo + mod`, `mod` zero or of the divisor's sign,
and `natAbs mod < natAbs y`. -/
theorem c2_quo_mod_contract (x y : Int) (hy : y ≠ 0) :
    x = y * (quo_mod x y).quo + (quo_mod x y).mod ∧
      ((quo_mod x y).mod = 0 ∨ (0 < (quo_mod x y).mod ↔ 0 < y)) ∧
      (quo_mod x y).mod.natAbs < y.natAbs := by
  have h1 := quo_mod_add x y hy
  have h2 := quo_mod_mod_range x y hy
  refine ⟨h1, ?_, ?_⟩ <;> omega

/-- C2 witness: the contract instantiated at `quo_mod 7 (-3)`. -/
theorem c2_quo_mod_contract_witness :
    (7 : Int) = -3 * (quo_mod 7 (-3)).quo + (quo_mod 7 (-3)).mod ∧
      ((quo_mod 7 (-3)).mod = 0 ∨ (0 < (quo_mod 7 (-3)).mod ↔ 0 < (-3 : Int))) ∧
      (quo_mod 7 (-3)).mod.natAbs < (-3 : Int).natAbs :=
  c2_quo_mod_contract 7 (-3) (by decide)

/-- C3: `leap_off` returns the unique pair `(year1, day1)` with
`0 ≤ day1 < 365 + leap_add year1` representing the same absolute day,
`leap_day year1 + day1 = leap_day year + day`. -/
theorem c3_leap_off_normalises (year day : Int) :
    0 ≤ (leap_off year day).day ∧
      (leap_off year day).day < 365 + leap_add (leap_off year day).year ∧
      leap_day (leap_off year day).year + (leap_off year day).day = leap_day year + day ∧
      ∀ year1 day1 : Int, 0 ≤ day1 → day1 < 365 + leap_add year1 →
        leap_day year1 + day1 = leap_day year + day →
        LeapOff.mk year1 day1 = leap_off year day := by
  obtain ⟨h0, h1, h2⟩ := leap_off_spec year day
  exact ⟨h0, h1, h2, fun y1 d1 a b c => (leap_off_unique a b c).symm⟩

/-- C3 witness: the uniqueness clause pins `leap_off 1 (-1)` to `(0, 365)`
(year 0 is a leap year, so day 365 is its last day). -/
theorem c3_leap_off_normalises_witness : LeapOff.mk 0 365 = leap_off 1 (-1) :=
  (c3_leap_off_normalises 1 (-1)).2.2.2 0 365 (by decide) (by decide) (by decide)

/-- C4: `leap_mday` gates the leap-day adjustment on the original `month`
argument (`month == 2` in `src/leap.c`), not on the resolved month.  At
`leap_mday 3 14` the normalisation gives quotient 1 and remainder 1, so the
resolved month is February of the leap year 4; the claim requires
`28 + 1 = 29`, but the code returns the bare table entry 28.  Asking for the
resolved date directly, `leap_mday 4 2`, does return 29. -/
theorem c4_leap_mday_uses_original_month :
    leap_mday 3 14 = 28 ∧
      (quo_mod (14 - 1) 12).quo = 1 ∧ (quo_mod (14 - 1) 12).mod = 1 ∧
      is_leap (3 + 1) = true ∧ leap_mday 4 2 = 29 := by decide

/-- C5: `leap_yday` gates the leap-day adjustment on the original `month`
argument (`month > 2` in `src/leap.c`), not on the resolved month.  At
`leap_yday 5 0` the normalisation gives quotient -1 and remainder 11, so the
resolved month is December of the leap year 4; the claim requires
`334 + 1 = 335`, but the code returns the bare table entry 334.  Asking for
the resolved date directly, `leap_yday 4 12`, does return 335; conversely
`leap_yday 3 14` adds a day (because `14 > 2`) although the resolved month,
February, is not after February. -/
theorem c5_leap_yday_uses_original_month :
    leap_yday 5 0 = 334 ∧
      (quo_mod (0 - 1) 12).quo = -1 ∧ (quo_mod (0 - 1) 12).mod = 11 ∧
      is_leap (5 + -1) = true ∧ leap_yday 4 12 = 335 ∧ leap_yday 3 14 = 32 := by decide

/-- C6 counterexample: with a budget of 2 body executions the loop does not
normalise year 0, day 732312 — the body must run 3 times (via year 2000 with
day 1827, then year 2004 with day 366, landing on year 2005, day 0). -/
theorem c6_two_iterations_not_enough :
    leap_off_loop 2 0 732312 = none ∧
      leap_off_loop 3 0 732312 = some ⟨2005, 0⟩ := by decide

/-- C6 (amended): the normalisation loop terminates for every input —
`natAbs day + 2` body executions always suffice — and the body executes at
most 2 times whenever the day offset is within a single year's magnitude
(`natAbs day ≤ 366`); larger offsets may need more. -/
theorem c6_loop_terminates (year day : Int) :
    (∃ r, leap_off_loop (day.natAbs + 2) year day = some r) ∧
      (day.natAbs ≤ 366 → ∃ r, leap_off_loop 2 year day = some r) :=
  ⟨leap_off_loop_total day.natAbs year day (le_refl _),
    fun h => small_two year day (by omega) (by omega)⟩

/-- C6 witness: two body executions normalise year 5, day -366. -/
theorem c6_loop_terminates_witness : ∃ r, leap_off_loop 2 5 (-366) = some r :=
  (c6_loop_terminates 5 (-366)).2 (by decide)

/-- C7: consecutive `leap_day` values differ by exactly `365 + leap_add year`,
and `leap_day` is monotone non-decreasing. -/
theorem c7_leap_day_step_monotone (year : Int) :
    leap_day (year + 1) - leap_day year = 365 + leap_add year ∧
      ∀ a b : Int, a ≤ b → leap_day a ≤ leap_day b := by
  constructor
  · have := leap_day_succ year
    omega
  · exact fun a b h => leap_day_mono h

/-- C7 witness: the step at year 2000 and monotonicity from 1900 to 1970. -/
theorem c7_leap_day_step_monotone_witness :
    leap_day (2000 + 1) - leap_day 2000 = 365 + leap_add 2000 ∧
      leap_day 1900 ≤ leap_day 1970 :=
  ⟨(c7_leap_day_step_monotone 2000).1,
    (c7_leap_day_step_monotone 2000).2 1900 1970 (by decide)⟩

/-- C8: `leap_date` always returns a month in `[1, 12]` and a 1-based day of
month within that month's length; in particular the 12-month scan always
breaks before exhausting its `month ≤ 12` bound. -/
theorem c8_leap_date_invariants (year day : Int) :
    1 ≤ (leap_date year day).month ∧ (leap_date year day).month ≤ 12 ∧
      1 ≤ (leap_date year day).day ∧
      (leap_date year day).day ≤
        leap_mday (leap_date year day).year (leap_date year day).month := by
  obtain ⟨h0, h1, h2⟩ := leap_off_spec year day
  have hlt : (leap_off year day).day < mdaySum (leap_off year day).year 1 12 := by
    rw [mdaySum_1_12]
    omega
  obtain ⟨m, r, heq, hm1, hm2, hr0, hr1, hsum⟩ :=
    leap_date_scan_spec (leap_off year day).year 12 1 (leap_off year day).day h0 hlt
  have hdate : leap_date year day = ⟨(leap_off year day).year, m, r + 1⟩ := by
    simp only [leap_date, heq]
  rw [hdate]
  show 1 ≤ m ∧ m ≤ 12 ∧ 1 ≤ r + 1 ∧ r + 1 ≤ leap_mday (leap_off year day).year m
  omega

/-- C10: a day offset already within its year's bounds passes through
`leap_off` unchanged, and consequently `leap_off` is idempotent. -/
theorem c10_leap_off_idempotent (year day : Int) :
    (0 ≤ day → day < 365 + leap_add year → leap_off year day = ⟨year, day⟩) ∧
      leap_off (leap_off year day).year (leap_off year day).day = leap_off year day := by
  constructor
  · exact fun h0 h1 => leap_off_done year day h0 h1
  · obtain ⟨h0, h1, _⟩ := leap_off_spec year day
    rw [leap_off_done _ _ h0 h1]

/-- C10 witness: day 59 of year 2020 is already normalised. -/
theorem c10_leap_off_idempotent_witness : leap_off 2020 59 = ⟨2020, 59⟩ :=
  (c10_leap_off_idempotent 2020 59).1 (by decide) (by decide)

end Leapc
